import Mathlib

/-!
Shallow embedding of the YouTube transcript-extraction service:
`src/main.py` (VTT parsing, retry/backoff, batch loop) and
`src/extract_from_csv.py` (CSV batch loop).

Python strings are modelled as `List Char`, Python floats as `ℚ`
(the delays and timestamps the code manipulates are all exactly
representable decimals).  Python exceptions become `Option`/`Except`
values.  Network effects are modelled by outcome oracles: a function
giving the outcome of each attempt.
-/

namespace YT

/-- Python `str.isspace` on a single character, as used by `str.strip`. -/
def isWs (c : Char) : Bool := c.isWhitespace

/-- Python `str.strip()`: remove whitespace from both ends. -/
def pyStrip (l : List Char) : List Char :=
  ((l.dropWhile isWs).reverse.dropWhile isWs).reverse

/-- Python `str.split(sep)` for a one-character separator `sep`
(`"".split(sep) == [""]`, empty fields kept). -/
def splitCh (sep : Char) : List Char → List (List Char)
  | [] => [[]]
  | c :: cs =>
    if c == sep then [] :: splitCh sep cs
    else (splitCh sep cs).modifyHead (c :: ·)

/-- Does `pat` occur at the start of the second list? -/
def startsWith : List Char → List Char → Bool
  | [], _ => true
  | _ :: _, [] => false
  | p :: ps, c :: cs => p == c && startsWith ps cs

/-- Python `pat in s`: substring containment. -/
def containsSub (pat : List Char) : List Char → Bool
  | [] => startsWith pat []
  | c :: cs => startsWith pat (c :: cs) || containsSub pat cs

/-- `'-->' in line` (main.py:514, main.py:529). -/
def hasArrow (l : List Char) : Bool := containsSub ['-', '-', '>'] l

/-- Python `str.split(sep)` for a multi-character separator `p :: ps`:
split at each leftmost non-overlapping occurrence, keeping empty fields. -/
def splitSub (p : Char) (ps : List Char) : List Char → List (List Char)
  | [] => [[]]
  | c :: cs =>
    if startsWith (p :: ps) (c :: cs) then
      [] :: splitSub p ps (cs.drop ps.length)
    else (splitSub p ps cs).modifyHead (c :: ·)
termination_by l => l.length
decreasing_by
  · simp only [List.length_cons, List.length_drop]
    omega
  · simp

/-- Python `" ".join(texts)`. -/
def joinSpace : List (List Char) → List Char
  | [] => []
  | [t] => t
  | t :: ts => t ++ ' ' :: joinSpace ts

/-- Numeric value of a list of ASCII digits. -/
def natVal (l : List Char) : Nat :=
  l.foldl (fun a c => 10 * a + (c.toNat - '0'.toNat)) 0

/-- Shared digit-run check for `pyInt`. -/
def pyIntCore (sgn : Int) (ds : List Char) : Option Int :=
  if !ds.isEmpty && ds.all Char.isDigit then some (sgn * natVal ds) else none

/-- Model of Python `int(s)`: optional surrounding whitespace, optional
sign, a non-empty run of ASCII digits.  (Underscore separators and
non-ASCII digits are outside the model.) -/
def pyInt (s : List Char) : Option Int :=
  match pyStrip s with
  | '-' :: r => pyIntCore (-1) r
  | '+' :: r => pyIntCore 1 r
  | r => pyIntCore 1 r

/-- Digits-and-optional-fraction part of `pyFloat`. -/
def pyFloatCore (sgn : ℚ) (ds : List Char) : Option ℚ :=
  let ip := ds.takeWhile Char.isDigit
  match ds.dropWhile Char.isDigit with
  | [] => if ip.isEmpty then none else some (sgn * (natVal ip : ℚ))
  | '.' :: fp =>
    if fp.all Char.isDigit ∧ (ip ≠ [] ∨ fp ≠ []) then
      some (sgn * ((natVal ip : ℚ) + (natVal fp : ℚ) / (10 : ℚ) ^ fp.length))
    else none
  | _ => none

/-- Model of Python `float(s)` restricted to finite decimal literals:
optional surrounding whitespace, optional sign, digits with an optional
fraction part.  (Exponent notation, `inf`/`nan` and underscore
separators are outside the model.) -/
def pyFloat (s : List Char) : Option ℚ :=
  match pyStrip s with
  | '-' :: r => pyFloatCore (-1) r
  | '+' :: r => pyFloatCore 1 r
  | r => pyFloatCore 1 r

/-- The `try` body of `parse_vtt_time` (main.py:578-583): split on `':'`,
convert field 0 and 1 with `int` and field 2 with `float`; a missing
field models the `IndexError`, a failed conversion the `ValueError`. -/
def tryParseVttTime (s : List Char) : Option ℚ :=
  (((splitCh ':' s).get? 0).bind pyInt).bind fun hours =>
    (((splitCh ':' s).get? 1).bind pyInt).bind fun minutes =>
      (((splitCh ':' s).get? 2).bind pyFloat).map fun seconds =>
        (hours : ℚ) * 3600 + (minutes : ℚ) * 60 + seconds

/-- `parse_vtt_time` (main.py:576-585): total, `0.0` on any failure. -/
def parse_vtt_time (s : List Char) : ℚ :=
  match tryParseVttTime s with
  | some v => v
  | none => 0

/-! ### Tag stripping: `remove_vtt_tags` (main.py:588-596)

Each Python regex in the function is deterministic (the quantified
classes cannot cross the delimiter that follows them), so a matcher
returns the length of the unique match starting at the head, and
`reSub` models `re.sub(pattern, '', s)`: leftmost non-overlapping
removal. -/

/-- `[^>]` as a character test. -/
def notGt (c : Char) : Bool := c != '>'

/-- One step of `\d+X` for a delimiter `X`: the digit run before the
first non-digit, which must be the delimiter; returns the run and the
remainder after the delimiter. -/
def digitsThen (delim : Char) (s : List Char) : Option (List Char × List Char) :=
  match s.dropWhile Char.isDigit with
  | [] => none
  | c :: r =>
    if c = delim ∧ s.takeWhile Char.isDigit ≠ [] then
      some (s.takeWhile Char.isDigit, r)
    else none

/-- Head match of `<\d+:\d+:\d+\.\d+>` (main.py:591); ASCII digits. -/
def matchTsTag : List Char → Option Nat
  | [] => none
  | c :: cs =>
    if c = '<' then
      (digitsThen ':' cs).bind fun p1 =>
        (digitsThen ':' p1.2).bind fun p2 =>
          (digitsThen '.' p2.2).bind fun p3 =>
            (digitsThen '>' p3.2).map fun p4 =>
              p1.1.length + p2.1.length + p3.1.length + p4.1.length + 5
    else none

/-- After the `<` (and optional `/`): `c[^>]*>`. -/
def matchCTagAfter : List Char → Option Nat
  | [] => none
  | c :: r =>
    if c = 'c' then
      match r.dropWhile notGt with
      | [] => none
      | _ :: _ => some ((r.takeWhile notGt).length + 2)
    else none

/-- Head match of `</?c[^>]*>` (main.py:593). -/
def matchCTag : List Char → Option Nat
  | [] => none
  | c :: cs =>
    if c = '<' then
      match cs with
      | [] => none
      | c2 :: cs2 =>
        if c2 = '/' then (matchCTagAfter cs2).map (· + 2)
        else (matchCTagAfter cs).map (· + 1)
    else none

/-- Head match of `<[^>]+>` (main.py:595). -/
def matchAnyTag : List Char → Option Nat
  | [] => none
  | c :: cs =>
    if c = '<' then
      match cs.dropWhile notGt with
      | [] => none
      | _ :: _ =>
        if (cs.takeWhile notGt).isEmpty then none
        else some ((cs.takeWhile notGt).length + 2)
    else none

/-- `re.sub(pattern, '', s)`: scan left to right, removing each leftmost
match and continuing after it. -/
def reSub (m : List Char → Option Nat) : List Char → List Char
  | [] => []
  | c :: cs =>
    match m (c :: cs) with
    | some n => if 1 ≤ n then reSub m (cs.drop (n - 1)) else c :: reSub m cs
    | none => c :: reSub m cs
termination_by l => l.length
decreasing_by
  all_goals simp only [List.length_cons, List.length_drop]
  all_goals omega

/-- `remove_vtt_tags` (main.py:588-596): the three substitutions in
source order, then `str.strip()`. -/
def remove_vtt_tags (text : List Char) : List Char :=
  pyStrip (reSub matchAnyTag (reSub matchCTag (reSub matchTsTag text)))

/-- Scan for a position where the matcher fires (a regex `search`). -/
def hasMatch (m : List Char → Option Nat) : List Char → Bool
  | [] => (m []).isSome
  | c :: cs => (m (c :: cs)).isSome || hasMatch m cs

/-! ### The VTT cue parser (main.py:504-555) -/

/-- A transcript cue: one entry of `transcript_list` (main.py:540-544). -/
structure Cue where
  text : List Char
  start : ℚ
  duration : ℚ
deriving DecidableEq, Repr

/-- Continuation test of the inner text loop (main.py:529):
`lines[i].strip() and '-->' not in lines[i]`. -/
def blockLine (l : List Char) : Bool := !(pyStrip l).isEmpty && !hasArrow l

/-- Per-line text processing (main.py:530-532): strip, then tag removal. -/
def strippedText (l : List Char) : List Char := remove_vtt_tags (pyStrip l)

/-- Texts gathered by the inner loop (main.py:527-535): stripped,
tag-stripped, empties dropped. -/
def collectTexts : List (List Char) → List (List Char)
  | [] => []
  | l :: ls =>
    if blockLine l then
      if (strippedText l).isEmpty then collectTexts ls
      else strippedText l :: collectTexts ls
    else []

/-- Timestamp extraction on a timing line (main.py:517-523): split on
`'-->'`, strip each side, take its first space-delimited token, convert
with `parse_vtt_time`. -/
def timingBounds (line : List Char) : ℚ × ℚ :=
  let tp := splitSub '-' ['-', '>'] line
  let startStr := (splitCh ' ' (pyStrip (tp.getD 0 []))).getD 0 []
  let endStr := (splitCh ' ' (pyStrip (tp.getD 1 []))).getD 0 []
  (parse_vtt_time startStr, parse_vtt_time endStr)

/-- Main parse loop (main.py:509-549), accumulating the parallel lists
`texts` and `transcript_list`.  A cue is appended only when the
collected text list is non-empty (main.py:537); the loop then resumes
after the text block. -/
def parseVttLoop : List (List Char) → List (List Char) × List Cue
  | [] => ([], [])
  | l :: ls =>
    if hasArrow (pyStrip l) then
      let b := timingBounds (pyStrip l)
      let sub := collectTexts ls
      let rest := parseVttLoop (ls.dropWhile blockLine)
      if sub.isEmpty then rest
      else (joinSpace sub :: rest.1,
            ⟨joinSpace sub, b.1, b.2 - b.1⟩ :: rest.2)
    else parseVttLoop ls
termination_by l => l.length
decreasing_by
  · have h := (List.dropWhile_suffix (l := ls) blockLine).length_le
    simp only [List.length_cons]
    omega
  · simp

/-- The dict built from a downloaded VTT body (main.py:502-555). -/
structure VttResult where
  transcript : List Char
  snippet_count : Nat
  transcript_list : List Cue
deriving DecidableEq, Repr

/-- Parse of a VTT body: split on newlines, run the loop, join the
texts with spaces, count the cues (main.py:507, main.py:551-555). -/
def vttParse (content : List Char) : VttResult :=
  let r := parseVttLoop (splitCh '\n' content)
  ⟨joinSpace r.1, r.2.length, r.2⟩

/-- The count named by the spec for C4: timing lines (lines containing
the arrow token) followed by at least one line, within the immediately
following block of consecutive non-blank non-timing lines, whose
content is non-empty after tag stripping. -/
def specTimingCount : List (List Char) → Nat
  | [] => 0
  | l :: ls =>
    if hasArrow l then
      (if (ls.takeWhile blockLine).any (fun t => !(strippedText t).isEmpty)
       then 1 else 0) + specTimingCount (ls.dropWhile blockLine)
    else specTimingCount ls
termination_by l => l.length
decreasing_by
  · have h := (List.dropWhile_suffix (l := ls) blockLine).length_le
    simp only [List.length_cons]
    omega
  · simp

/-! ### Retry loop of `download_subtitle_vtt` (main.py:469-573) -/

/-- Outcome of one `requests.get` attempt: a 200 body, a 429 status,
an `HTTPError` with some other response status, or any other exception. -/
inductive FetchOutcome where
  | ok (body : List Char)
  | status429
  | httpError (code : Nat)
  | otherError
deriving DecidableEq, Repr

/-- Retry loop of `download_subtitle_vtt` (main.py:482-573) over an
oracle giving the outcome of attempt `a` (0-based, as in
`for attempt in range(max_retries)`).  Result: the sleeps performed in
order, the number of fetches executed, and the returned value (`none`
models `return None`).  Before attempt `a > 0` the code sleeps
`min(2 ** attempt, 10)` seconds (main.py:485-488). -/
def download_subtitle_vtt (fetch : Nat → FetchOutcome) (maxRetries a : Nat) :
    List ℚ × Nat × Option VttResult :=
  if _h : a < maxRetries then
    let w : List ℚ := if 0 < a then [min ((2 : ℚ) ^ a) 10] else []
    match fetch a with
    | .ok body => (w, 1, some (vttParse body))
    | .status429 =>
      if a < maxRetries - 1 then
        let r := download_subtitle_vtt fetch maxRetries (a + 1)
        (w ++ r.1, r.2.1 + 1, r.2.2)
      else (w, 1, none)
    | .httpError code =>
      if code = 429 then
        if a < maxRetries - 1 then
          let r := download_subtitle_vtt fetch maxRetries (a + 1)
          (w ++ r.1, r.2.1 + 1, r.2.2)
        else (w, 1, none)
      else (w, 1, none)
    | .otherError => (w, 1, none)
  else ([], 0, none)
termination_by maxRetries - a

/-! ### Retry loop of `get_video_info` (main.py:175-351) -/

/-- Outcome of one `ydl.extract_info` attempt. -/
inductive InfoOutcome (α : Type) where
  | ok (info : α)
  | downloadError (msg : List Char)
  | otherException (msg : List Char)
deriving DecidableEq, Repr

/-- Python `str.lower()` (ASCII model). -/
def pyLower (l : List Char) : List Char := l.map Char.toLower

/-- Keyword screen of main.py:293: bot-detection / rate-limit words. -/
def kwRetry1 (m : List Char) : Bool :=
  containsSub "bot".toList m || containsSub "sign in".toList m ||
  containsSub "cookies".toList m || containsSub "429".toList m ||
  containsSub "too many requests".toList m ||
  containsSub "rate limit".toList m || containsSub "precondition".toList m

/-- Keyword screen of main.py:308: extractor-parse failures. -/
def kwRetry2 (m : List Char) : Bool :=
  containsSub "failed to extract".toList m ||
  containsSub "player response".toList m

/-- Keyword screen of main.py:335 (generic exceptions). -/
def kwBot (m : List Char) : Bool :=
  containsSub "bot".toList m || containsSub "sign in".toList m ||
  containsSub "cookies".toList m

/-- Retry loop of `get_video_info` (main.py:180-351) over an outcome
oracle; the `Except.error` side carries the status code of the raised
`HTTPException`.  Keyword classification happens on the lowercased
message (main.py:293, 308, 335) except the case-sensitive
`"Video unavailable"` test (main.py:324).  The post-loop raise
(main.py:346-351) is only reachable with `maxRetries = 0`. -/
def get_video_info {α : Type} (fetch : Nat → InfoOutcome α) (maxRetries a : Nat) :
    List ℚ × Nat × Except Nat α :=
  if _h : a < maxRetries then
    let w : List ℚ := if 0 < a then [min ((2 : ℚ) ^ a) 10] else []
    match fetch a with
    | .ok v => (w, 1, .ok v)
    | .downloadError msg =>
      let lm := pyLower msg
      if kwRetry1 lm then
        if a < maxRetries - 1 then
          let r := get_video_info fetch maxRetries (a + 1)
          (w ++ r.1, r.2.1 + 1, r.2.2)
        else
          (w, 1, .error (if containsSub "bot".toList lm ||
                            containsSub "sign in".toList lm then 403 else 429))
      else if kwRetry2 lm then
        if a < maxRetries - 1 then
          let r := get_video_info fetch maxRetries (a + 1)
          (w ++ r.1, r.2.1 + 1, r.2.2)
        else (w, 1, .error 500)
      else if containsSub "Video unavailable".toList msg then
        (w, 1, .error 404)
      else (w, 1, .error 400)
    | .otherException msg =>
      if kwBot (pyLower msg) then
        if a < maxRetries - 1 then
          let r := get_video_info fetch maxRetries (a + 1)
          (w ++ r.1, r.2.1 + 1, r.2.2)
        else (w, 1, .error 403)
      else (w, 1, .error 500)
  else ([], 0, .error 403)
termination_by maxRetries - a

/-- Retryable outcomes of the `download_subtitle_vtt` loop: a 429
status, or an `HTTPError` whose response status is 429. -/
def vttRetryable : FetchOutcome → Bool
  | .status429 => true
  | .httpError code => code == 429
  | _ => false

/-- Non-retryable error outcomes of the `download_subtitle_vtt` loop. -/
def vttNonRetryableErr : FetchOutcome → Bool
  | .httpError code => code != 429
  | .otherError => true
  | _ => false

/-- Retryable outcomes of the `get_video_info` loop: messages matching
the retry keyword screens. -/
def infoRetryable {α : Type} : InfoOutcome α → Bool
  | .downloadError m => kwRetry1 (pyLower m) || kwRetry2 (pyLower m)
  | .otherException m => kwBot (pyLower m)
  | .ok _ => false

/-- Non-retryable error outcomes of the `get_video_info` loop. -/
def infoNonRetryableErr {α : Type} : InfoOutcome α → Bool
  | .downloadError m => !(kwRetry1 (pyLower m) || kwRetry2 (pyLower m))
  | .otherException m => !kwBot (pyLower m)
  | .ok _ => false

/-! ### Batch loop (main.py:730-771, main.py:829-860, main.py:912-941,
extract_from_csv.py:142-172) -/

/-- The response fields the batch loop manipulates; the full
`VideoResponse` model (main.py:73-115) carries many further optional
metadata fields that no claim mentions. -/
structure VideoResponse where
  video_id : List Char
  title : List Char
  url : List Char
  error : Option (List Char)
deriving DecidableEq, Repr

/-- `extract_video_id` (main.py:166-173). -/
def extract_video_id (url : List Char) : List Char :=
  if containsSub "youtu.be/".toList url then
    (splitCh '?' ((splitSub 'y' "outu.be/".toList url).getD 1 [])).getD 0 []
  else if containsSub "watch?v=".toList url then
    (splitCh '&' ((splitSub 'w' "atch?v=".toList url).getD 1 [])).getD 0 []
  else url

/-- Failure placeholder (main.py:752-757): original URL, fixed title,
stringified exception. -/
def failurePlaceholder (url msg : List Char) : VideoResponse :=
  ⟨extract_video_id url, "처리 실패".toList, url, some msg⟩

/-- Observable step of a batch run. -/
inductive BatchEvent where
  | process (url : List Char)
  | sleep (d : ℚ)
deriving DecidableEq, Repr

/-- Inter-item delay table of `/transcript` (main.py:761-767), also
used by `/transcript/csv-save` (main.py:932-938) and
`extract_from_csv.py` (lines 164-170). -/
def batchDelay (n : Nat) : ℚ := if 100 ≤ n then 5 else if 50 < n then 3 else 2

/-- Inter-item delay table of `/transcript/csv` (main.py:849-856). -/
def csvDelay (n : Nat) : ℚ := if 100 ≤ n then 3 else if 50 < n then 2 else 1

/-- One iteration body (main.py:747-757): `try` the per-item extraction,
`except Exception` builds the placeholder.  `Except.error` covers every
raised exception, including `HTTPException` (a subclass of
`Exception`), carrying its `str()`. -/
def handleItem (f : List Char → Except (List Char) VideoResponse)
    (url : List Char) : VideoResponse :=
  match f url with
  | .ok v => v
  | .error e => failurePlaceholder url e

/-- The batch loop (main.py:741-769 and its clones): `idx` is the
1-based index from `enumerate(urls, 1)`, `n` the total count, `delay`
the applicable delay table; a sleep follows each item with `idx < n`
(main.py:760). -/
def batchLoop (f : List Char → Except (List Char) VideoResponse)
    (delay : Nat → ℚ) (n : Nat) :
    List (List Char) → Nat → List VideoResponse × List BatchEvent
  | [], _ => ([], [])
  | url :: rest, idx =>
    let r := handleItem f url
    let evs : List BatchEvent :=
      if idx < n then [.process url, .sleep (delay n)] else [.process url]
    let t := batchLoop f delay n rest (idx + 1)
    (r :: t.1, evs ++ t.2)

/-- The loop of `extract_batch_videos` (main.py:741-769). -/
def extract_batch_videos_loop (f : List Char → Except (List Char) VideoResponse)
    (urls : List (List Char)) : List VideoResponse × List BatchEvent :=
  batchLoop f batchDelay urls.length urls 1

/-- Is a batch event a sleep? -/
def isSleepEvent : BatchEvent → Bool
  | .sleep _ => true
  | .process _ => false

/-! ## Theorems -/

/-- The `texts` accumulator always equals the cue texts in order. -/
theorem parseVttLoop_fst (ls : List (List Char)) :
    (parseVttLoop ls).1 = (parseVttLoop ls).2.map Cue.text := by
  induction ls using parseVttLoop.induct with
  | case1 => simp [parseVttLoop]
  | case2 l ls h1 hsub heq ih => simp [parseVttLoop, h1, hsub, heq, ih]
  | case3 l ls h1 hsub hne ih => simp [parseVttLoop, h1, hsub, hne, ih]
  | case4 l ls h1 ih => simp [parseVttLoop, h1, ih]

/-- C3: for every VTT input, the returned transcript string equals the
space-joined concatenation of the text fields of the emitted cues in
parse order, and the returned `snippet_count` equals the number of
emitted cues. -/
theorem vtt_transcript_join_count (content : List Char) :
    (vttParse content).transcript =
      joinSpace ((vttParse content).transcript_list.map Cue.text) ∧
    (vttParse content).snippet_count = (vttParse content).transcript_list.length := by
  refine ⟨?_, rfl⟩
  simp only [vttParse]
  rw [parseVttLoop_fst]

/-- C10: `parse_vtt_time` is total; whenever the input splits on `':'`
into at least three fields whose first two parse as integers and whose
third parses as a float it returns `hours*3600 + minutes*60 + seconds`,
and on every other input it returns `0.0`. -/
theorem parse_vtt_time_spec :
    (∀ s hh mm ss,
        ((splitCh ':' s).get? 0).bind pyInt = some hh →
        ((splitCh ':' s).get? 1).bind pyInt = some mm →
        ((splitCh ':' s).get? 2).bind pyFloat = some ss →
        parse_vtt_time s = (hh : ℚ) * 3600 + (mm : ℚ) * 60 + ss) ∧
    (∀ s, (((splitCh ':' s).get? 0).bind pyInt = none ∨
           ((splitCh ':' s).get? 1).bind pyInt = none ∨
           ((splitCh ':' s).get? 2).bind pyFloat = none) →
        parse_vtt_time s = 0) := by
  constructor
  · intro s hh mm ss h0 h1 h2
    unfold parse_vtt_time tryParseVttTime
    rw [h0, Option.some_bind, h1, Option.some_bind, h2, Option.map_some']
  · intro s h
    unfold parse_vtt_time tryParseVttTime
    rcases h with h | h | h
    · rw [h, Option.none_bind]
    · rw [h]
      cases h0 : ((splitCh ':' s).get? 0).bind pyInt
      · rw [Option.none_bind]
      · rw [Option.some_bind, Option.none_bind]
    · rw [h]
      cases h0 : ((splitCh ':' s).get? 0).bind pyInt
      · rw [Option.none_bind]
      · rw [Option.some_bind]
        cases h1 : ((splitCh ':' s).get? 1).bind pyInt
        · rw [Option.none_bind]
        · rw [Option.some_bind, Option.map_none']

/-- Witness for C10 at `"00:00:02.000"` (parseable) and `"zzz"`
(unparseable). -/
theorem parse_vtt_time_spec_witness :
    parse_vtt_time ("00:00:02.000").toList = (0 : ℤ) * 3600 + (0 : ℤ) * 60 + 2 ∧
    parse_vtt_time ("zzz").toList = 0 := by
  constructor
  · exact parse_vtt_time_spec.1 ("00:00:02.000").toList 0 0 2
      (by simp +decide [splitCh, pyInt, pyIntCore, pyStrip, isWs, natVal])
      (by simp +decide [splitCh, pyInt, pyIntCore, pyStrip, isWs, natVal])
      (by simp +decide [splitCh, pyFloat, pyFloatCore, pyStrip, isWs, natVal])
  · exact parse_vtt_time_spec.2 _
      (Or.inl (by simp +decide [splitCh, pyInt, pyIntCore, pyStrip, isWs]))

/-- The result list of the batch loop is the per-item map. -/
theorem batchLoop_fst (f : List Char → Except (List Char) VideoResponse)
    (delay : Nat → ℚ) (n : Nat) :
    ∀ (ls : List (List Char)) (idx : Nat),
      (batchLoop f delay n ls idx).1 = ls.map (handleItem f)
  | [], _ => rfl
  | url :: rest, idx => by
    have ih := batchLoop_fst f delay n rest (idx + 1)
    conv_lhs => rw [batchLoop]
    simpa using ih

/-- The batch event trace: one process per item with the delay
interspersed, provided `idx` is positioned as `enumerate(urls, 1)`. -/
theorem batchLoop_trace (f : List Char → Except (List Char) VideoResponse)
    (delay : Nat → ℚ) (n : Nat) :
    ∀ (ls : List (List Char)) (idx : Nat), idx + ls.length = n + 1 →
      (batchLoop f delay n ls idx).2 =
        (ls.map BatchEvent.process).intersperse (BatchEvent.sleep (delay n)) := by
  intro ls
  induction ls with
  | nil => intro idx h; rfl
  | cons url rest ih =>
    intro idx h
    cases rest with
    | nil =>
      have hidx : ¬ idx < n := by simp at h; omega
      simp [batchLoop, hidx]
    | cons v t =>
      have hidx : idx < n := by simp at h; omega
      have ht := ih (idx + 1) (by simp at h ⊢; omega)
      conv_lhs => rw [batchLoop]
      simp only [hidx, if_true]
      rw [ht]
      simp [List.intersperse_cons₂]

/-- Sleep count of an interspersed trace. -/
theorem countP_sleep_intersperse (d : ℚ) :
    ∀ (us : List (List Char)),
      (((us.map BatchEvent.process).intersperse (BatchEvent.sleep d)).countP
          isSleepEvent) = us.length - 1 := by
  intro us
  induction us with
  | nil => rfl
  | cons u rest ih =>
    cases rest with
    | nil => simp [isSleepEvent]
    | cons v t =>
      simp only [List.map_cons, List.intersperse_cons₂, List.countP_cons] at ih ⊢
      simp [isSleepEvent] at ih ⊢
      omega

/-- C9: in every batch run a sleep happens between consecutive items and
never after the last (`n - 1` sleeps for `n` items), and the per-item
delay is a step function of the batch size that is non-decreasing in
the batch size (for both delay tables in the sources). -/
theorem batch_sleep_trace_monotone
    (f : List Char → Except (List Char) VideoResponse) (urls : List (List Char)) :
    (extract_batch_videos_loop f urls).2 =
      (urls.map BatchEvent.process).intersperse
        (BatchEvent.sleep (batchDelay urls.length)) ∧
    ((extract_batch_videos_loop f urls).2.countP isSleepEvent) = urls.length - 1 ∧
    (∀ n m, n ≤ m → batchDelay n ≤ batchDelay m) ∧
    (∀ n m, n ≤ m → csvDelay n ≤ csvDelay m) := by
  have h1 := batchLoop_trace f batchDelay urls.length urls 1 (by omega)
  refine ⟨h1, ?_, ?_, ?_⟩
  · show (batchLoop f batchDelay urls.length urls 1).2.countP isSleepEvent = _
    rw [h1, countP_sleep_intersperse]
  · intro n m h
    unfold batchDelay
    split_ifs <;> first | (exfalso; omega) | norm_num
  · intro n m h
    unfold csvDelay
    split_ifs <;> first | (exfalso; omega) | norm_num

/-- Witness for C9: monotonicity instances of both delay tables. -/
theorem batch_sleep_trace_monotone_witness :
    batchDelay 10 ≤ batchDelay 60 ∧ csvDelay 60 ≤ csvDelay 200 :=
  ⟨(batch_sleep_trace_monotone (fun _ => .error []) []).2.2.1 10 60 (by norm_num),
   (batch_sleep_trace_monotone (fun _ => .error []) []).2.2.2 60 200 (by norm_num)⟩

/-- C1: the batch loop returns one result per input URL, in input
order; each element is the extractor's success record, or on any raised
exception (including `HTTPException`) the failure placeholder carrying
the original URL and the error string; no item's failure aborts the
batch or removes an element. -/
theorem batch_results_length_order
    (f : List Char → Except (List Char) VideoResponse) (urls : List (List Char)) :
    (extract_batch_videos_loop f urls).1 = urls.map (handleItem f) ∧
    (extract_batch_videos_loop f urls).1.length = urls.length ∧
    (∀ url v, f url = .ok v → handleItem f url = v) ∧
    (∀ url e, f url = .error e →
        handleItem f url = failurePlaceholder url e ∧
        (handleItem f url).url = url ∧ (handleItem f url).error = some e) := by
  refine ⟨batchLoop_fst f batchDelay urls.length urls 1, ?_, ?_, ?_⟩
  · show (batchLoop f batchDelay urls.length urls 1).1.length = urls.length
    rw [batchLoop_fst]
    exact List.length_map urls (handleItem f)
  · intro url v h
    simp [handleItem, h]
  · intro url e h
    refine ⟨by simp [handleItem, h], ?_, ?_⟩ <;>
      simp [handleItem, h, failurePlaceholder]

/-- Witness for C1: a batch of three where item 2 throws yields a
3-element list whose middle entry is the placeholder with the original
URL. -/
theorem batch_results_length_order_witness :
    ((extract_batch_videos_loop
        (fun u => if u = ['b'] then .error ['x'] else .ok ⟨u, [], u, none⟩)
        [['a'], ['b'], ['c']]).1).length = 3 ∧
    handleItem (fun u => if u = ['b'] then .error ['x'] else .ok ⟨u, [], u, none⟩) ['b'] =
      failurePlaceholder ['b'] ['x'] ∧
    (handleItem (fun u => if u = ['b'] then .error ['x'] else .ok ⟨u, [], u, none⟩)
        ['b']).url = ['b'] := by
  have h := batch_results_length_order
    (fun u => if u = ['b'] then .error ['x'] else .ok ⟨u, [], u, none⟩)
    [['a'], ['b'], ['c']]
  have he := h.2.2.2 ['b'] ['x'] (by rfl)
  exact ⟨h.2.1.trans (by rfl), he.1, he.2.1⟩

theorem vtt_retry_waits_from (fetch : Nat → FetchOutcome) :
    ∀ (d maxR a : Nat), maxR - a = d → 1 ≤ a →
      (download_subtitle_vtt fetch maxR a).2.1 ≤ maxR - a ∧
      (download_subtitle_vtt fetch maxR a).1 =
        (List.range (download_subtitle_vtt fetch maxR a).2.1).map
          (fun i => min ((2 : ℚ) ^ (a + i)) 10) := by
  intro d
  induction d with
  | zero =>
    intro maxR a hd ha
    have hlt : ¬ a < maxR := by omega
    unfold download_subtitle_vtt
    simp [hlt]
  | succ d ihd =>
    intro maxR a hd ha
    have hlt : a < maxR := by omega
    have ha0 : 0 < a := by omega
    have ih := ihd maxR (a + 1) (by omega) (by omega)
    have hmap : ∀ k, ((2 : ℚ) ^ a ⊓ 10) ::
        (List.range k).map (fun i => (2 : ℚ) ^ (a + 1 + i) ⊓ 10) =
        (List.range (k + 1)).map (fun i => (2 : ℚ) ^ (a + i) ⊓ 10) := by
      intro k
      rw [List.range_succ_eq_map, List.map_cons, List.map_map]
      simp only [Nat.add_zero]
      refine congrArg _ ?_
      refine List.map_congr_left ?_
      intro i _
      simp only [Function.comp]
      congr 2
      omega
    have hsingle : [(2 : ℚ) ^ a ⊓ 10] =
        (List.range 1).map (fun i => (2 : ℚ) ^ (a + i) ⊓ 10) := by
      simpa using hmap 0
    have ihle := ih.1
    unfold download_subtitle_vtt
    rw [dif_pos hlt]
    cases hf : fetch a with
    | ok body =>
      dsimp only
      rw [if_pos ha0]
      exact ⟨show (1 : ℕ) ≤ maxR - a by omega, hsingle⟩
    | status429 =>
      dsimp only
      rw [if_pos ha0]
      by_cases hr : a < maxR - 1
      · rw [if_pos hr]
        dsimp only
        refine ⟨by omega, ?_⟩
        rw [ih.2, List.singleton_append, hmap]
      · rw [if_neg hr]
        exact ⟨show (1 : ℕ) ≤ maxR - a by omega, hsingle⟩
    | httpError code =>
      dsimp only
      rw [if_pos ha0]
      by_cases hc : code = 429
      · rw [if_pos hc]
        by_cases hr : a < maxR - 1
        · rw [if_pos hr]
          dsimp only
          refine ⟨by omega, ?_⟩
          rw [ih.2, List.singleton_append, hmap]
        · rw [if_neg hr]
          exact ⟨show (1 : ℕ) ≤ maxR - a by omega, hsingle⟩
      · rw [if_neg hc]
        exact ⟨show (1 : ℕ) ≤ maxR - a by omega, hsingle⟩
    | otherError =>
      dsimp only
      rw [if_pos ha0]
      exact ⟨show (1 : ℕ) ≤ maxR - a by omega, hsingle⟩

theorem info_retry_waits_from {α : Type} (fetch : Nat → InfoOutcome α) :
    ∀ (d maxR a : Nat), maxR - a = d → 1 ≤ a →
      (get_video_info fetch maxR a).2.1 ≤ maxR - a ∧
      (get_video_info fetch maxR a).1 =
        (List.range (get_video_info fetch maxR a).2.1).map
          (fun i => min ((2 : ℚ) ^ (a + i)) 10) := by
  intro d
  induction d with
  | zero =>
    intro maxR a hd ha
    have hlt : ¬ a < maxR := by omega
    unfold get_video_info
    simp [hlt]
  | succ d ihd =>
    intro maxR a hd ha
    have hlt : a < maxR := by omega
    have ha0 : 0 < a := by omega
    have ih := ihd maxR (a + 1) (by omega) (by omega)
    have ihle := ih.1
    have hmap : ∀ k, ((2 : ℚ) ^ a ⊓ 10) ::
        (List.range k).map (fun i => (2 : ℚ) ^ (a + 1 + i) ⊓ 10) =
        (List.range (k + 1)).map (fun i => (2 : ℚ) ^ (a + i) ⊓ 10) := by
      intro k
      rw [List.range_succ_eq_map, List.map_cons, List.map_map]
      simp only [Nat.add_zero]
      refine congrArg _ ?_
      refine List.map_congr_left ?_
      intro i _
      simp only [Function.comp]
      congr 2
      omega
    have hsingle : [(2 : ℚ) ^ a ⊓ 10] =
        (List.range 1).map (fun i => (2 : ℚ) ^ (a + i) ⊓ 10) := by
      simpa using hmap 0
    unfold get_video_info
    rw [dif_pos hlt]
    cases hf : fetch a with
    | ok v =>
      dsimp only
      rw [if_pos ha0]
      exact ⟨show (1 : ℕ) ≤ maxR - a by omega, hsingle⟩
    | downloadError msg =>
      dsimp only
      rw [if_pos ha0]
      by_cases hk1 : kwRetry1 (pyLower msg) = true
      · rw [if_pos hk1]
        by_cases hr : a < maxR - 1
        · rw [if_pos hr]
          dsimp only
          refine ⟨by omega, ?_⟩
          rw [ih.2, List.singleton_append, hmap]
        · rw [if_neg hr]
          exact ⟨show (1 : ℕ) ≤ maxR - a by omega, hsingle⟩
      · rw [if_neg hk1]
        by_cases hk2 : kwRetry2 (pyLower msg) = true
        · rw [if_pos hk2]
          by_cases hr : a < maxR - 1
          · rw [if_pos hr]
            dsimp only
            refine ⟨by omega, ?_⟩
            rw [ih.2, List.singleton_append, hmap]
          · rw [if_neg hr]
            exact ⟨show (1 : ℕ) ≤ maxR - a by omega, hsingle⟩
        · rw [if_neg hk2]
          by_cases hv : containsSub "Video unavailable".toList msg = true
          · rw [if_pos hv]
            exact ⟨show (1 : ℕ) ≤ maxR - a by omega, hsingle⟩
          · rw [if_neg hv]
            exact ⟨show (1 : ℕ) ≤ maxR - a by omega, hsingle⟩
    | otherException msg =>
      dsimp only
      rw [if_pos ha0]
      by_cases hb : kwBot (pyLower msg) = true
      · rw [if_pos hb]
        by_cases hr : a < maxR - 1
        · rw [if_pos hr]
          dsimp only
          refine ⟨by omega, ?_⟩
          rw [ih.2, List.singleton_append, hmap]
        · rw [if_neg hr]
          exact ⟨show (1 : ℕ) ≤ maxR - a by omega, hsingle⟩
      · rw [if_neg hb]
        exact ⟨show (1 : ℕ) ≤ maxR - a by omega, hsingle⟩

/-- C6: with the default `max_retries = 3`, each retry wrapper executes
the fetch at most 3 times, performs no wait before the first attempt,
and before attempt `N` (`N > 1`) waits exactly `min(2^(N-1), 10)`
seconds (the i-th recorded wait, 0-based, precedes attempt `i + 2`). -/
theorem retry_attempts_and_waits :
    (∀ fetch : Nat → FetchOutcome,
        (download_subtitle_vtt fetch 3 0).2.1 ≤ 3 ∧
        (download_subtitle_vtt fetch 3 0).1 =
          (List.range ((download_subtitle_vtt fetch 3 0).2.1 - 1)).map
            (fun i => min ((2 : ℚ) ^ (i + 1)) 10)) ∧
    (∀ fetch : Nat → InfoOutcome Unit,
        (get_video_info fetch 3 0).2.1 ≤ 3 ∧
        (get_video_info fetch 3 0).1 =
          (List.range ((get_video_info fetch 3 0).2.1 - 1)).map
            (fun i => min ((2 : ℚ) ^ (i + 1)) 10)) := by
  have hcomm : ∀ k, (List.range k).map (fun i => (2 : ℚ) ^ (0 + 1 + i) ⊓ 10) =
      (List.range k).map (fun i => (2 : ℚ) ^ (i + 1) ⊓ 10) :=
    fun k => List.map_congr_left (fun i _ => by rw [show 0 + 1 + i = i + 1 by omega])
  constructor
  · intro fetch
    have ih := vtt_retry_waits_from fetch 2 3 (0 + 1) (by omega) (by omega)
    have ihle := ih.1
    unfold download_subtitle_vtt
    rw [dif_pos (by omega : (0 : ℕ) < 3)]
    cases hf : fetch 0 with
    | ok body =>
      dsimp only
      rw [if_neg (lt_irrefl 0)]
      exact ⟨show (1 : ℕ) ≤ 3 by omega, rfl⟩
    | status429 =>
      dsimp only
      rw [if_neg (lt_irrefl 0), if_pos (by omega : (0 : ℕ) < 3 - 1)]
      dsimp only
      refine ⟨by omega, ?_⟩
      rw [List.nil_append, ih.2, Nat.add_sub_cancel]
      exact hcomm _
    | httpError code =>
      dsimp only
      rw [if_neg (lt_irrefl 0)]
      by_cases hc : code = 429
      · rw [if_pos hc, if_pos (by omega : (0 : ℕ) < 3 - 1)]
        dsimp only
        refine ⟨by omega, ?_⟩
        rw [List.nil_append, ih.2, Nat.add_sub_cancel]
        exact hcomm _
      · rw [if_neg hc]
        exact ⟨show (1 : ℕ) ≤ 3 by omega, rfl⟩
    | otherError =>
      dsimp only
      rw [if_neg (lt_irrefl 0)]
      exact ⟨show (1 : ℕ) ≤ 3 by omega, rfl⟩
  · intro fetch
    have ih := info_retry_waits_from fetch 2 3 (0 + 1) (by omega) (by omega)
    have ihle := ih.1
    unfold get_video_info
    rw [dif_pos (by omega : (0 : ℕ) < 3)]
    cases hf : fetch 0 with
    | ok v =>
      dsimp only
      rw [if_neg (lt_irrefl 0)]
      exact ⟨show (1 : ℕ) ≤ 3 by omega, rfl⟩
    | downloadError msg =>
      dsimp only
      rw [if_neg (lt_irrefl 0)]
      by_cases hk1 : kwRetry1 (pyLower msg) = true
      · rw [if_pos hk1, if_pos (by omega : (0 : ℕ) < 3 - 1)]
        dsimp only
        refine ⟨by omega, ?_⟩
        rw [List.nil_append, ih.2, Nat.add_sub_cancel]
        exact hcomm _
      · rw [if_neg hk1]
        by_cases hk2 : kwRetry2 (pyLower msg) = true
        · rw [if_pos hk2, if_pos (by omega : (0 : ℕ) < 3 - 1)]
          dsimp only
          refine ⟨by omega, ?_⟩
          rw [List.nil_append, ih.2, Nat.add_sub_cancel]
          exact hcomm _
        · rw [if_neg hk2]
          by_cases hv : containsSub "Video unavailable".toList msg = true
          · rw [if_pos hv]
            exact ⟨show (1 : ℕ) ≤ 3 by omega, rfl⟩
          · rw [if_neg hv]
            exact ⟨show (1 : ℕ) ≤ 3 by omega, rfl⟩
    | otherException msg =>
      dsimp only
      rw [if_neg (lt_irrefl 0)]
      by_cases hb : kwBot (pyLower msg) = true
      · rw [if_pos hb, if_pos (by omega : (0 : ℕ) < 3 - 1)]
        dsimp only
        refine ⟨by omega, ?_⟩
        rw [List.nil_append, ih.2, Nat.add_sub_cancel]
        exact hcomm _
      · rw [if_neg hb]
        exact ⟨show (1 : ℕ) ≤ 3 by omega, rfl⟩

theorem vtt_shortcircuit_from (fetch : Nat → FetchOutcome) :
    ∀ (k a maxR : Nat), a + k < maxR →
      (∀ j, a ≤ j → j < a + k → vttRetryable (fetch j) = true) →
      vttNonRetryableErr (fetch (a + k)) = true →
      (download_subtitle_vtt fetch maxR a).2.1 = k + 1 ∧
      (download_subtitle_vtt fetch maxR a).2.2 = none := by
  intro k
  induction k with
  | zero =>
    intro a maxR hlt hretr hnon
    rw [Nat.add_zero] at hlt hnon
    unfold download_subtitle_vtt
    rw [dif_pos hlt]
    cases hf : fetch a with
    | ok body => rw [hf] at hnon; simp [vttNonRetryableErr] at hnon
    | status429 => rw [hf] at hnon; simp [vttNonRetryableErr] at hnon
    | httpError code =>
      rw [hf] at hnon
      simp only [vttNonRetryableErr, ne_eq, bne_iff_ne] at hnon
      dsimp only
      rw [if_neg hnon]
      exact ⟨rfl, rfl⟩
    | otherError =>
      dsimp only
      exact ⟨rfl, rfl⟩
  | succ k ihk =>
    intro a maxR hlt hretr hnon
    have hr : vttRetryable (fetch a) = true :=
      hretr a (Nat.le_refl a) (by omega)
    have ih := ihk (a + 1) maxR (by omega)
      (fun j h1 h2 => hretr j (by omega) (by omega))
      (by rw [show a + 1 + k = a + (k + 1) by omega]; exact hnon)
    unfold download_subtitle_vtt
    rw [dif_pos (by omega : a < maxR)]
    cases hf : fetch a with
    | ok body => rw [hf] at hr; simp [vttRetryable] at hr
    | status429 =>
      dsimp only
      rw [if_pos (by omega : a < maxR - 1)]
      dsimp only
      exact ⟨by rw [ih.1], ih.2⟩
    | httpError code =>
      rw [hf] at hr
      simp only [vttRetryable, beq_iff_eq] at hr
      dsimp only
      rw [if_pos hr, if_pos (by omega : a < maxR - 1)]
      dsimp only
      exact ⟨by rw [ih.1], ih.2⟩
    | otherError => rw [hf] at hr; simp [vttRetryable] at hr

theorem info_shortcircuit_from {α : Type} (fetch : Nat → InfoOutcome α) :
    ∀ (k a maxR : Nat), a + k < maxR →
      (∀ j, a ≤ j → j < a + k → infoRetryable (fetch j) = true) →
      infoNonRetryableErr (fetch (a + k)) = true →
      (get_video_info fetch maxR a).2.1 = k + 1 ∧
      ∃ code, (get_video_info fetch maxR a).2.2 = .error code := by
  intro k
  induction k with
  | zero =>
    intro a maxR hlt hretr hnon
    rw [Nat.add_zero] at hlt hnon
    unfold get_video_info
    rw [dif_pos hlt]
    cases hf : fetch a with
    | ok v => rw [hf] at hnon; simp [infoNonRetryableErr] at hnon
    | downloadError msg =>
      rw [hf] at hnon
      simp only [infoNonRetryableErr, Bool.not_or, Bool.and_eq_true,
        Bool.not_eq_true'] at hnon
      dsimp only
      rw [if_neg (by simp [hnon.1]), if_neg (by simp [hnon.2])]
      by_cases hv : containsSub "Video unavailable".toList msg = true
      · rw [if_pos hv]
        exact ⟨rfl, 404, rfl⟩
      · rw [if_neg hv]
        exact ⟨rfl, 400, rfl⟩
    | otherException msg =>
      rw [hf] at hnon
      simp only [infoNonRetryableErr, Bool.not_eq_true'] at hnon
      dsimp only
      rw [if_neg (by simp [hnon])]
      exact ⟨rfl, 500, rfl⟩
  | succ k ihk =>
    intro a maxR hlt hretr hnon
    have hr : infoRetryable (fetch a) = true :=
      hretr a (Nat.le_refl a) (by omega)
    have ih := ihk (a + 1) maxR (by omega)
      (fun j h1 h2 => hretr j (by omega) (by omega))
      (by rw [show a + 1 + k = a + (k + 1) by omega]; exact hnon)
    unfold get_video_info
    rw [dif_pos (by omega : a < maxR)]
    cases hf : fetch a with
    | ok v => rw [hf] at hr; simp [infoRetryable] at hr
    | downloadError msg =>
      rw [hf] at hr
      simp only [infoRetryable, Bool.or_eq_true] at hr
      dsimp only
      by_cases hk1 : kwRetry1 (pyLower msg) = true
      · rw [if_pos hk1, if_pos (by omega : a < maxR - 1)]
        dsimp only
        exact ⟨by rw [ih.1], ih.2⟩
      · have hk2 : kwRetry2 (pyLower msg) = true := by
          rcases hr with h | h
          · exact absurd h hk1
          · exact h
        rw [if_neg hk1, if_pos hk2, if_pos (by omega : a < maxR - 1)]
        dsimp only
        exact ⟨by rw [ih.1], ih.2⟩
    | otherException msg =>
      rw [hf] at hr
      simp only [infoRetryable] at hr
      dsimp only
      rw [if_pos hr, if_pos (by omega : a < maxR - 1)]
      dsimp only
      exact ⟨by rw [ih.1], ih.2⟩

/-- C7: an error outcome that does not match the retryable
classification (non-429 `HTTPError` / generic exception for the VTT
loop; a message matching none of the retry keyword screens for the
video-info loop) terminates the wrapper on the attempt where it occurs:
exactly `k + 1` fetches are executed, none of the remaining attempts. -/
theorem retry_nonretryable_short_circuit :
    (∀ (fetch : Nat → FetchOutcome) (k maxR : Nat), k < maxR →
        (∀ j, j < k → vttRetryable (fetch j) = true) →
        vttNonRetryableErr (fetch k) = true →
        (download_subtitle_vtt fetch maxR 0).2.1 = k + 1 ∧
        (download_subtitle_vtt fetch maxR 0).2.2 = none) ∧
    (∀ (fetch : Nat → InfoOutcome Unit) (k maxR : Nat), k < maxR →
        (∀ j, j < k → infoRetryable (fetch j) = true) →
        infoNonRetryableErr (fetch k) = true →
        (get_video_info fetch maxR 0).2.1 = k + 1 ∧
        ∃ code, (get_video_info fetch maxR 0).2.2 = .error code) := by
  constructor
  · intro fetch k maxR hlt hretr hnon
    exact vtt_shortcircuit_from fetch k 0 maxR (by omega)
      (fun j h1 h2 => hretr j (by omega))
      (by rw [Nat.zero_add]; exact hnon)
  · intro fetch k maxR hlt hretr hnon
    exact info_shortcircuit_from fetch k 0 maxR (by omega)
      (fun j h1 h2 => hretr j (by omega))
      (by rw [Nat.zero_add]; exact hnon)

/-- Witness for C7: a 429 then a 500 stops the VTT loop after attempt
2 of 3; a non-matching message stops the info loop at attempt 1 of 3. -/
theorem retry_nonretryable_short_circuit_witness :
    ((download_subtitle_vtt
        (fun j => if j = 0 then .status429 else .httpError 500) 3 0).2.1 = 2 ∧
      (download_subtitle_vtt
        (fun j => if j = 0 then .status429 else .httpError 500) 3 0).2.2 = none) ∧
    ((get_video_info
        (fun _ : Nat => (InfoOutcome.downloadError "no internet".toList : InfoOutcome Unit)) 3 0).2.1 = 1 ∧
      ∃ code, (get_video_info
        (fun _ : Nat => (InfoOutcome.downloadError "no internet".toList : InfoOutcome Unit)) 3 0).2.2 = .error code) := by
  constructor
  · exact retry_nonretryable_short_circuit.1
      (fun j => if j = 0 then .status429 else .httpError 500) 1 3 (by omega)
      (by intro j hj; interval_cases j; rfl)
      (by rfl)
  · exact retry_nonretryable_short_circuit.2
      (fun _ : Nat => (InfoOutcome.downloadError "no internet".toList : InfoOutcome Unit)) 0 3 (by omega)
      (by intro j hj; omega)
      (by simp +decide [infoNonRetryableErr, kwRetry1, kwRetry2, pyLower, containsSub, startsWith])

theorem startsWith_iff (p : List Char) : ∀ s, startsWith p s = true ↔ p <+: s := by
  induction p with
  | nil => intro s; simp [startsWith]
  | cons a ps ih =>
    intro s
    cases s with
    | nil => simp [startsWith]
    | cons c cs =>
      simp [startsWith, List.cons_prefix_cons, ih cs]

theorem containsSub_iff (p : List Char) : ∀ s, containsSub p s = true ↔ p <:+: s := by
  intro s
  induction s with
  | nil =>
    cases p with
    | nil => simp [containsSub, startsWith]
    | cons a ps => simp [containsSub, startsWith]
  | cons c cs ih =>
    rw [containsSub, List.infix_cons_iff, Bool.or_eq_true, ih, startsWith_iff]

theorem infix_dropWhile (q : Char → Bool) (c0 : Char) (rest : List Char)
    (h : q c0 = false) :
    ∀ l : List Char, ((c0 :: rest) <:+: l.dropWhile q) ↔ ((c0 :: rest) <:+: l) := by
  intro l
  induction l with
  | nil => simp
  | cons c cs ih =>
    rw [List.dropWhile_cons]
    by_cases hc : q c = true
    · rw [if_pos hc, ih, List.infix_cons_iff]
      constructor
      · intro hinf
        exact Or.inr hinf
      · intro hinf
        rcases hinf with hpre | hinf2
        · rcases hpre with ⟨t, ht⟩
          rw [List.cons_append] at ht
          injection ht with h1 _
          rw [← h1, h] at hc
          exact absurd hc (by simp)
        · exact hinf2
    · rw [if_neg hc]

theorem rev_infix_swap (u v : List Char) : (u <:+: v.reverse) ↔ (u.reverse <:+: v) := by
  have h := @List.reverse_infix Char u.reverse v
  rwa [List.reverse_reverse] at h

theorem hasArrow_pyStrip (l : List Char) : hasArrow (pyStrip l) = hasArrow l := by
  have key : (['-', '-', '>'] <:+: pyStrip l) ↔ (['-', '-', '>'] <:+: l) := by
    unfold pyStrip
    rw [rev_infix_swap]
    rw [show (['-', '-', '>'] : List Char).reverse = ['>', '-', '-'] from rfl]
    rw [infix_dropWhile isWs '>' ['-', '-'] (by decide)]
    rw [rev_infix_swap]
    rw [show (['>', '-', '-'] : List Char).reverse = ['-', '-', '>'] from rfl]
    exact infix_dropWhile isWs '-' ['-', '>'] (by decide) l
  have h1 := containsSub_iff ['-', '-', '>'] (pyStrip l)
  have h2 := containsSub_iff ['-', '-', '>'] l
  unfold hasArrow
  cases hb : containsSub ['-', '-', '>'] (pyStrip l) <;>
    cases hb2 : containsSub ['-', '-', '>'] l <;> simp_all

theorem collectTexts_eq (ls : List (List Char)) :
    collectTexts ls =
      ((ls.takeWhile blockLine).map strippedText).filter (fun t => !t.isEmpty) := by
  induction ls with
  | nil => rfl
  | cons l ls ih =>
    rw [collectTexts, List.takeWhile_cons]
    by_cases hb : blockLine l = true
    · rw [if_pos hb, if_pos hb, List.map_cons, List.filter_cons]
      by_cases he : (strippedText l).isEmpty = true
      · simp [he, ih]
      · simp [he, ih]
    · rw [if_neg hb, if_neg hb]
      rfl

theorem collectTexts_isEmpty_iff (ls : List (List Char)) :
    (collectTexts ls = []) ↔
      ((ls.takeWhile blockLine).any (fun t => !(strippedText t).isEmpty) = false) := by
  rw [collectTexts_eq, List.filter_eq_nil_iff, List.any_eq_false]
  constructor
  · intro h x hx
    have := h (strippedText x) (List.mem_map_of_mem _ hx)
    simpa using this
  · intro h t ht
    rcases List.mem_map.mp ht with ⟨x, hx, rfl⟩
    simpa using h x hx

/-- C4: the number of emitted cues equals the number of timing lines
(lines containing `'-->'`) whose immediately following block of
consecutive non-blank non-timing lines contains a line that is
non-empty after tag stripping; a cue whose text would be empty after
stripping is discarded.  (Proved for every input, well-formed or not.) -/
theorem vtt_cue_count_eq_spec (lines : List (List Char)) :
    (parseVttLoop lines).2.length = specTimingCount lines := by
  induction lines using parseVttLoop.induct with
  | case1 => simp [parseVttLoop, specTimingCount]
  | case2 l ls h1 hsub heq ih =>
    have harrow : hasArrow l = true := by rw [← hasArrow_pyStrip]; exact h1
    have heq' : collectTexts ls = [] := List.isEmpty_iff.mp heq
    have hany := (collectTexts_isEmpty_iff ls).mp heq'
    simp only [parseVttLoop, specTimingCount, h1, harrow, heq', hany, if_true,
      Bool.false_eq_true, if_false, List.isEmpty_nil, Nat.zero_add]
    exact ih
  | case3 l ls h1 hsub hne ih =>
    have harrow : hasArrow l = true := by rw [← hasArrow_pyStrip]; exact h1
    have hne0 : ¬ collectTexts ls = [] := fun hc =>
      hne (show (collectTexts ls).isEmpty = true by simp [hc])
    have hany : (ls.takeWhile blockLine).any (fun t => !(strippedText t).isEmpty) = true := by
      cases h : (ls.takeWhile blockLine).any (fun t => !(strippedText t).isEmpty)
      · exact absurd ((collectTexts_isEmpty_iff ls).mpr h) hne0
      · rfl
    have hne' : (collectTexts ls).isEmpty = false := by
      cases h : (collectTexts ls).isEmpty
      · rfl
      · exact absurd (List.isEmpty_iff.mp h) hne0
    simp only [parseVttLoop, specTimingCount, h1, harrow, hany, hne', if_true,
      Bool.false_eq_true, if_false, List.length_cons]
    omega
  | case4 l ls h1 ih =>
    have harrow : hasArrow l = false := by
      rw [← hasArrow_pyStrip]
      exact Bool.not_eq_true _ ▸ h1
    have h1' : hasArrow (pyStrip l) = false := Bool.not_eq_true _ ▸ h1
    simp only [parseVttLoop, specTimingCount, h1', harrow, Bool.false_eq_true, if_false]
    exact ih

/-- C2 counterexample: the input whose timing line is
`00:00:05.000 --> 00:00:01.000` emits a cue with duration `-4`: the
parsed end time is below the parsed start time and no clamping is
applied, refuting "end time ≥ start time for every emitted cue". -/
theorem vtt_cue_negative_duration_cex :
    (vttParse ("00:00:05.000 --> 00:00:01.000\nHello").toList).transcript_list =
      [⟨"Hello".toList, 5, -4⟩] ∧ ¬ ((0 : ℚ) ≤ -4) := by
  constructor
  · simp +decide [vttParse, parseVttLoop, splitCh, pyStrip, isWs, hasArrow, containsSub,
      startsWith, collectTexts, blockLine, strippedText, remove_vtt_tags, reSub,
      matchTsTag, matchCTag, matchCTagAfter, matchAnyTag, notGt, timingBounds, splitSub,
      parse_vtt_time, tryParseVttTime, pyInt, pyIntCore, pyFloat, pyFloatCore, natVal,
      joinSpace]
    norm_num
  · norm_num

/-- C2 amended: no clamping exists; a cue's duration is parsed end
minus parsed start, so whenever every timing line of the input has
parsed start ≤ parsed end, every emitted cue has non-negative
duration — and only then. -/
theorem vtt_cue_duration_nonneg_of_ordered (lines : List (List Char)) :
    (∀ l ∈ lines, hasArrow (pyStrip l) = true →
        (timingBounds (pyStrip l)).1 ≤ (timingBounds (pyStrip l)).2) →
    ∀ cue ∈ (parseVttLoop lines).2, 0 ≤ cue.duration := by
  induction lines using parseVttLoop.induct with
  | case1 => intro _ cue hc; simp [parseVttLoop] at hc
  | case2 l ls h1 hsub heq ih =>
    intro h cue hc
    have heq' : collectTexts ls = [] := List.isEmpty_iff.mp heq
    simp only [parseVttLoop, h1, if_true, heq', List.isEmpty_nil] at hc
    have hsubset : ∀ x ∈ ls.dropWhile blockLine, x ∈ l :: ls := fun x hx =>
      List.mem_cons_of_mem _ ((List.dropWhile_suffix blockLine).sublist.subset hx)
    exact ih (fun x hx => h x (hsubset x hx)) cue hc
  | case3 l ls h1 hsub hne ih =>
    intro h cue hc
    have hne' : (collectTexts ls).isEmpty = false := by
      cases hi : (collectTexts ls).isEmpty
      · rfl
      · exact absurd hi hne
    simp only [parseVttLoop, h1, if_true, hne', Bool.false_eq_true, if_false,
      List.mem_cons] at hc
    have hsubset : ∀ x ∈ ls.dropWhile blockLine, x ∈ l :: ls := fun x hx =>
      List.mem_cons_of_mem _ ((List.dropWhile_suffix blockLine).sublist.subset hx)
    rcases hc with rfl | hc
    · have hb := h l (List.mem_cons_self l ls) h1
      exact sub_nonneg.mpr hb
    · exact ih (fun x hx => h x (hsubset x hx)) cue hc
  | case4 l ls h1 ih =>
    intro h cue hc
    simp only [parseVttLoop, h1, if_false] at hc
    exact ih (fun x hx => h x (List.mem_cons_of_mem _ hx)) cue hc

/-- Witness for amended C2 on an input with ordered timestamps. -/
theorem vtt_cue_duration_nonneg_of_ordered_witness :
    (0 : ℚ) ≤ (Cue.mk ("Hi").toList 1 (3 / 2)).duration := by
  refine vtt_cue_duration_nonneg_of_ordered
    [("00:00:01.000 --> 00:00:02.500").toList, ("Hi").toList] ?_
    (Cue.mk ("Hi").toList 1 (3 / 2)) ?_
  · intro l hl harrow
    rcases List.mem_cons.mp hl with rfl | hl2
    · simp +decide [timingBounds, splitSub, splitCh, pyStrip, isWs, startsWith,
        parse_vtt_time, tryParseVttTime, pyInt, pyIntCore, pyFloat, pyFloatCore, natVal]
      norm_num
    · rcases List.mem_cons.mp hl2 with rfl | hl3
      · exfalso
        revert harrow
        decide
      · exact absurd hl3 (List.not_mem_nil _)
  · show _ ∈ (parseVttLoop _).2
    simp +decide [parseVttLoop, splitCh, pyStrip, isWs, hasArrow, containsSub,
      startsWith, collectTexts, blockLine, strippedText, remove_vtt_tags, reSub,
      matchTsTag, matchCTag, matchCTagAfter, matchAnyTag, notGt, timingBounds, splitSub,
      parse_vtt_time, tryParseVttTime, pyInt, pyIntCore, pyFloat, pyFloatCore, natVal,
      joinSpace]
    norm_num

/-- C5 counterexample: on `00:00:05.000 --> zzz` only the end
timestamp fails to parse; the emitted cue keeps start `5` (not `0`)
with duration `-5`, and the line is processed (its cue is emitted), not
skipped. -/
theorem vtt_malformed_end_keeps_start_cex :
    (vttParse ("00:00:05.000 --> zzz\nHello").toList).transcript_list =
      [⟨"Hello".toList, 5, -5⟩] ∧ ((5 : ℚ) ≠ 0) := by
  constructor
  · simp +decide [vttParse, parseVttLoop, splitCh, pyStrip, isWs, hasArrow, containsSub,
      startsWith, collectTexts, blockLine, strippedText, remove_vtt_tags, reSub,
      matchTsTag, matchCTag, matchCTagAfter, matchAnyTag, notGt, timingBounds, splitSub,
      parse_vtt_time, tryParseVttTime, pyInt, pyIntCore, pyFloat, pyFloatCore, natVal,
      joinSpace]
  · norm_num

/-- C5 amended: a timestamp that fails to parse defaults to zero
individually (`parse_vtt_time` returns `0.0` exactly on parse failure),
and a timing line — malformed or not — is processed, not skipped: its
cue (when the block has text) carries the per-side parsed bounds and
parsing continues with the remaining lines. -/
theorem vtt_time_default_zero_and_continue :
    (∀ s, tryParseVttTime s = none → parse_vtt_time s = 0) ∧
    (∀ l ls, hasArrow (pyStrip l) = true →
        (parseVttLoop (l :: ls)).2 =
          (if (collectTexts ls).isEmpty then []
           else [⟨joinSpace (collectTexts ls),
                  (timingBounds (pyStrip l)).1,
                  (timingBounds (pyStrip l)).2 - (timingBounds (pyStrip l)).1⟩]) ++
          (parseVttLoop (ls.dropWhile blockLine)).2) := by
  constructor
  · intro s h
    unfold parse_vtt_time
    rw [h]
  · intro l ls h1
    conv_lhs => rw [parseVttLoop]
    rw [if_pos h1]
    by_cases hs : (collectTexts ls).isEmpty = true
    · rw [if_pos hs, if_pos hs, List.nil_append]
    · rw [if_neg hs, if_neg hs, List.cons_append, List.nil_append]

/-- Witness for amended C5 at the unparseable timestamp `"zzz"` and a
timing line whose end timestamp is malformed. -/
theorem vtt_time_default_zero_and_continue_witness :
    parse_vtt_time ("zzz").toList = 0 ∧
    (parseVttLoop [("00:00:05.000 --> zzz").toList, ("Hello").toList]).2 =
      (if (collectTexts [("Hello").toList]).isEmpty then []
       else [⟨joinSpace (collectTexts [("Hello").toList]),
              (timingBounds (pyStrip ("00:00:05.000 --> zzz").toList)).1,
              (timingBounds (pyStrip ("00:00:05.000 --> zzz").toList)).2 -
                (timingBounds (pyStrip ("00:00:05.000 --> zzz").toList)).1⟩]) ++
      (parseVttLoop ([("Hello").toList].dropWhile blockLine)).2 := by
  constructor
  · exact vtt_time_default_zero_and_continue.1 ("zzz").toList (by decide)
  · exact vtt_time_default_zero_and_continue.2
      ("00:00:05.000 --> zzz").toList [("Hello").toList] (by decide)

theorem digit_notGt (c : Char) (h : c.isDigit = true) : notGt c = true := by
  unfold notGt
  by_cases hc : c = '>'
  · subst hc; exact absurd h (by decide)
  · simp [bne_iff_ne]; exact hc

theorem dropWhile_head_false (p : Char → Bool) (l : List Char) (c : Char)
    (r : List Char) (h : l.dropWhile p = c :: r) : p c = false := by
  induction l with
  | nil => simp at h
  | cons x xs ih =>
    rw [List.dropWhile_cons] at h
    by_cases hx : p x = true
    · rw [if_pos hx] at h
      exact ih h
    · rw [if_neg hx] at h
      injection h with h1 _
      rw [← h1]
      simpa using hx

theorem matchAnyTag_isSome_iff (s : List Char) :
    (matchAnyTag s).isSome = true ↔
      ∃ mid post, s = '<' :: (mid ++ '>' :: post) ∧ mid ≠ [] ∧
        mid.all notGt = true := by
  constructor
  · intro h
    match s with
    | [] => simp [matchAnyTag] at h
    | c :: cs =>
      by_cases hc : c = '<'
      · subst hc
        simp only [matchAnyTag, if_true] at h
        rcases hdrop : cs.dropWhile notGt with _ | ⟨d, rest⟩
        · rw [hdrop] at h
          simp at h
        · rw [hdrop] at h
          have hd : d = '>' := by
            have hpd := dropWhile_head_false notGt cs d rest hdrop
            simpa [notGt] using hpd
          subst hd
          by_cases hemp : (cs.takeWhile notGt).isEmpty = true
          · rw [if_pos hemp] at h
            simp at h
          · have hcs : cs = cs.takeWhile notGt ++ '>' :: rest := by
              conv_lhs => rw [← List.takeWhile_append_dropWhile notGt cs, hdrop]
            refine ⟨cs.takeWhile notGt, rest, ?_, ?_, List.all_takeWhile⟩
            · conv_lhs => rw [hcs]
            · intro hnil
              rw [hnil] at hemp
              simp at hemp
      · simp only [matchAnyTag] at h
        rw [if_neg hc] at h
        simp at h
  · rintro ⟨mid, post, rfl, hne, hall⟩
    simp only [matchAnyTag, if_true]
    have hall' : ∀ x ∈ mid, notGt x = true := fun x hx => List.all_eq_true.mp hall x hx
    rw [List.takeWhile_append_of_pos hall', List.dropWhile_append_of_pos hall']
    rw [List.takeWhile_cons, List.dropWhile_cons]
    simp only [show notGt '>' = false from by decide, Bool.false_eq_true, if_false,
      List.append_nil]
    simp [hne]

theorem hasMatch_any_iff (s : List Char) :
    hasMatch matchAnyTag s = true ↔
      ∃ pre mid post, s = pre ++ '<' :: (mid ++ '>' :: post) ∧ mid ≠ [] ∧
        mid.all notGt = true := by
  induction s with
  | nil =>
    simp only [hasMatch, matchAnyTag, Option.isSome_none, Bool.false_eq_true,
      false_iff]
    rintro ⟨pre, mid, post, heq, -, -⟩
    exact absurd heq.symm (by simp)
  | cons c cs ih =>
    rw [hasMatch, Bool.or_eq_true, ih, matchAnyTag_isSome_iff]
    constructor
    · rintro (⟨mid, post, heq, hne, hall⟩ | ⟨pre, mid, post, heq, hne, hall⟩)
      · exact ⟨[], mid, post, by rw [heq]; rfl, hne, hall⟩
      · exact ⟨c :: pre, mid, post, by rw [List.cons_append, heq], hne, hall⟩
    · rintro ⟨pre, mid, post, heq, hne, hall⟩
      cases pre with
      | nil =>
        left
        exact ⟨mid, post, by simpa using heq, hne, hall⟩
      | cons p pre' =>
        right
        rw [List.cons_append] at heq
        injection heq with h1 h2
        exact ⟨pre', mid, post, h2, hne, hall⟩

theorem hasMatch_any_of_isInfix {t u : List Char} (hinf : t <:+: u)
    (h : hasMatch matchAnyTag t = true) : hasMatch matchAnyTag u = true := by
  rcases hinf with ⟨x, y, rfl⟩
  rcases (hasMatch_any_iff t).mp h with ⟨pre, mid, post, rfl, hne, hall⟩
  refine (hasMatch_any_iff _).mpr ⟨x ++ pre, mid, post ++ y, ?_, hne, hall⟩
  simp [List.append_assoc]

theorem pyStrip_isInfix (l : List Char) : pyStrip l <:+: l := by
  unfold pyStrip
  have h1 : (l.dropWhile isWs) <:+ l := List.dropWhile_suffix isWs
  have h3 : (l.dropWhile isWs).reverse.dropWhile isWs <:+ (l.dropWhile isWs).reverse :=
    List.dropWhile_suffix isWs
  have h2 : ((l.dropWhile isWs).reverse.dropWhile isWs).reverse <+: l.dropWhile isWs := by
    apply (@List.reverse_suffix Char
      (((l.dropWhile isWs).reverse.dropWhile isWs).reverse) (l.dropWhile isWs)).mp
    rw [List.reverse_reverse]
    exact h3
  exact (h2.isInfix).trans h1.isInfix

theorem reSub_of_all_notGt (s : List Char) (h : ∀ c ∈ s, notGt c = true) :
    reSub matchAnyTag s = s := by
  induction s with
  | nil => simp [reSub]
  | cons c cs ih =>
    have hm : matchAnyTag (c :: cs) = none := by
      simp only [matchAnyTag]
      by_cases hc : c = '<'
      · rw [if_pos hc]
        have hnil : cs.dropWhile notGt = [] := by
          rw [List.dropWhile_eq_nil_iff]
          intro x hx
          exact h x (List.mem_cons_of_mem _ hx)
        rw [hnil]
      · rw [if_neg hc]
    rw [reSub, hm]
    rw [ih (fun x hx => h x (List.mem_cons_of_mem _ hx))]

theorem noGt_no_tag (s : List Char) (h : ∀ c ∈ s, notGt c = true) :
    hasMatch matchAnyTag s = false := by
  cases hm : hasMatch matchAnyTag s
  · rfl
  · exfalso
    rcases (hasMatch_any_iff s).mp hm with ⟨pre, mid, post, heq, -, -⟩
    have hmem : '>' ∈ s := by rw [heq]; simp
    have := h _ hmem
    simp [notGt] at this

theorem matchAnyTag_some_pos (s : List Char) (k : Nat)
    (h : matchAnyTag s = some k) : 1 ≤ k := by
  match s with
  | [] => simp [matchAnyTag] at h
  | c :: cs =>
    simp only [matchAnyTag] at h
    by_cases hc : c = '<'
    · rw [if_pos hc] at h
      rcases hd : cs.dropWhile notGt with _ | ⟨d, rest⟩
      · rw [hd] at h
        simp at h
      · rw [hd] at h
        by_cases he : (cs.takeWhile notGt).isEmpty = true
        · rw [if_pos he] at h
          simp at h
        · rw [if_neg he] at h
          injection h with h1
          omega
    · rw [if_neg hc] at h
      simp at h

theorem reSub_any_no_tag : ∀ (n : Nat) (s : List Char), s.length ≤ n →
    hasMatch matchAnyTag (reSub matchAnyTag s) = false := by
  intro n
  induction n with
  | zero =>
    intro s hs
    have hnil : s = [] := List.length_eq_zero.mp (Nat.le_zero.mp hs)
    subst hnil
    simp [reSub, hasMatch, matchAnyTag]
  | succ n ihn =>
    intro s hs
    match s with
    | [] => simp [reSub, hasMatch, matchAnyTag]
    | c :: cs =>
      rw [reSub]
      cases hm : matchAnyTag (c :: cs) with
      | some k =>
        have hk := matchAnyTag_some_pos _ _ hm
        dsimp only
        rw [if_pos hk]
        refine ihn _ ?_
        rw [List.length_drop]
        simp only [List.length_cons] at hs
        omega
      | none =>
        dsimp only
        have hcs : cs.length ≤ n := by
          simp only [List.length_cons] at hs
          omega
        by_cases hc : c = '<'
        · subst hc
          simp only [matchAnyTag, if_true] at hm
          rcases hd : cs.dropWhile notGt with _ | ⟨d, rest⟩
          · -- no '>' in cs at all
            have hall : ∀ x ∈ cs, notGt x = true := List.dropWhile_eq_nil_iff.mp hd
            rw [reSub_of_all_notGt cs hall]
            rw [hasMatch]
            have hm2 : matchAnyTag ('<' :: cs) = none := by
              simp only [matchAnyTag, if_true]
              rw [hd]
            rw [hm2]
            simp only [Option.isSome_none, Bool.false_or]
            exact noGt_no_tag cs hall
          · -- cs starts with '>'
            rw [hd] at hm
            have hd' : d = '>' := by
              have := dropWhile_head_false notGt cs d rest hd
              simpa [notGt] using this
            subst hd'
            have he : (cs.takeWhile notGt).isEmpty = true := by
              by_cases he : (cs.takeWhile notGt).isEmpty = true
              · exact he
              · rw [if_neg he] at hm
                simp at hm
            have hcseq : cs = '>' :: rest := by
              conv_lhs => rw [← List.takeWhile_append_dropWhile notGt cs, hd]
              rw [List.isEmpty_iff.mp he]
              rfl
            subst hcseq
            have hrest : rest.length ≤ n := by
              simp only [List.length_cons] at hcs
              omega
            have hrsub : reSub matchAnyTag ('>' :: rest) = '>' :: reSub matchAnyTag rest := by
              rw [reSub, show matchAnyTag ('>' :: rest) = none from by
                simp only [matchAnyTag]
                rw [if_neg (by decide)]]
            rw [hrsub]
            rw [hasMatch]
            have hm0 : matchAnyTag ('<' :: '>' :: reSub matchAnyTag rest) = none := by
              simp only [matchAnyTag, if_true]
              rw [show List.dropWhile notGt ('>' :: reSub matchAnyTag rest) =
                    '>' :: reSub matchAnyTag rest from by
                  rw [List.dropWhile_cons, if_neg (by decide)]]
              rw [show List.takeWhile notGt ('>' :: reSub matchAnyTag rest) = [] from by
                  rw [List.takeWhile_cons, if_neg (by decide)]]
              rfl
            rw [hm0]
            simp only [Option.isSome_none, Bool.false_or]
            rw [hasMatch]
            rw [show matchAnyTag ('>' :: reSub matchAnyTag rest) = none from by
              simp only [matchAnyTag]
              rw [if_neg (by decide)]]
            simp only [Option.isSome_none, Bool.false_or]
            exact ihn rest hrest
        · rw [hasMatch]
          rw [show matchAnyTag (c :: reSub matchAnyTag cs) = none from by
            simp only [matchAnyTag]
            rw [if_neg hc]]
          simp only [Option.isSome_none, Bool.false_or]
          exact ihn cs hcs

theorem digitsThen_some (delim : Char) (s d r : List Char)
    (h : digitsThen delim s = some (d, r)) :
    s = d ++ delim :: r ∧ d ≠ [] ∧ d.all Char.isDigit = true := by
  unfold digitsThen at h
  rcases hd : s.dropWhile Char.isDigit with _ | ⟨c, rest⟩
  · rw [hd] at h
    simp at h
  · rw [hd] at h
    dsimp only at h
    by_cases hcond : c = delim ∧ s.takeWhile Char.isDigit ≠ []
    · rw [if_pos hcond] at h
      simp only [Option.some.injEq, Prod.mk.injEq] at h
      refine ⟨?_, ?_, ?_⟩
      · conv_lhs => rw [← List.takeWhile_append_dropWhile Char.isDigit s, hd]
        rw [h.1, hcond.1, h.2]
      · rw [← h.1]
        exact hcond.2
      · rw [← h.1]
        exact List.all_takeWhile
    · rw [if_neg hcond] at h
      simp at h

theorem all_notGt_of_digits (d : List Char) (h : d.all Char.isDigit = true) :
    d.all notGt = true :=
  List.all_eq_true.mpr (fun x hx => digit_notGt x (List.all_eq_true.mp h x hx))

theorem matchTsTag_isSome_any (s : List Char)
    (h : (matchTsTag s).isSome = true) : (matchAnyTag s).isSome = true := by
  match s with
  | [] => simp [matchTsTag] at h
  | c :: cs =>
    simp only [matchTsTag] at h
    by_cases hc : c = '<'
    · subst hc
      rw [if_pos rfl] at h
      rcases hb1 : digitsThen ':' cs with _ | ⟨d1, r1⟩
      · rw [hb1] at h; simp at h
      · rw [hb1] at h
        simp only [Option.some_bind] at h
        try dsimp only at h
        rcases hb2 : digitsThen ':' r1 with _ | ⟨d2, r2⟩
        · rw [hb2] at h; simp at h
        · rw [hb2] at h
          simp only [Option.some_bind] at h
          try dsimp only at h
          rcases hb3 : digitsThen '.' r2 with _ | ⟨d3, r3⟩
          · rw [hb3] at h; simp at h
          · rw [hb3] at h
            simp only [Option.some_bind] at h
            try dsimp only at h
            rcases hb4 : digitsThen '>' r3 with _ | ⟨d4, r4⟩
            · rw [hb4] at h; simp at h
            · obtain ⟨he1, hn1, ha1⟩ := digitsThen_some ':' cs d1 r1 hb1
              obtain ⟨he2, hn2, ha2⟩ := digitsThen_some ':' r1 d2 r2 hb2
              obtain ⟨he3, hn3, ha3⟩ := digitsThen_some '.' r2 d3 r3 hb3
              obtain ⟨he4, hn4, ha4⟩ := digitsThen_some '>' r3 d4 r4 hb4
              refine (matchAnyTag_isSome_iff _).mpr
                ⟨d1 ++ ':' :: (d2 ++ ':' :: (d3 ++ '.' :: d4)), r4, ?_, ?_, ?_⟩
              · rw [he1, he2, he3, he4]
                simp [List.append_assoc]
              · simp [hn1]
              · simp only [List.all_append, List.all_cons, Bool.and_eq_true]
                refine ⟨all_notGt_of_digits d1 ha1, by decide,
                  all_notGt_of_digits d2 ha2, by decide,
                  all_notGt_of_digits d3 ha3, by decide,
                  all_notGt_of_digits d4 ha4⟩
    · rw [if_neg hc] at h
      simp at h

theorem matchCTagAfter_decomp (r : List Char)
    (h : (matchCTagAfter r).isSome = true) :
    ∃ run post, r = 'c' :: (run ++ '>' :: post) ∧ run.all notGt = true := by
  match r with
  | [] => simp [matchCTagAfter] at h
  | c :: rs =>
    simp only [matchCTagAfter] at h
    by_cases hc : c = 'c'
    · subst hc
      rw [if_pos rfl] at h
      rcases hd : rs.dropWhile notGt with _ | ⟨d, rest⟩
      · rw [hd] at h; simp at h
      · have hd' : d = '>' := by
          have := dropWhile_head_false notGt rs d rest hd
          simpa [notGt] using this
        subst hd'
        refine ⟨rs.takeWhile notGt, rest, ?_, List.all_takeWhile⟩
        conv_lhs => rw [show rs = rs.takeWhile notGt ++ '>' :: rest from by
          conv_lhs => rw [← List.takeWhile_append_dropWhile notGt rs, hd]]
    · rw [if_neg hc] at h
      simp at h

theorem matchCTag_isSome_any (s : List Char)
    (h : (matchCTag s).isSome = true) : (matchAnyTag s).isSome = true := by
  match s with
  | [] => simp [matchCTag] at h
  | c :: cs =>
    simp only [matchCTag] at h
    by_cases hc : c = '<'
    · subst hc
      rw [if_pos rfl] at h
      match cs with
      | [] => simp at h
      | c2 :: cs2 =>
        dsimp only at h
        by_cases h2 : c2 = '/'
        · subst h2
          rw [if_pos rfl] at h
          simp only [Option.isSome_map'] at h
          obtain ⟨run, post, heq, hall⟩ := matchCTagAfter_decomp cs2 h
          refine (matchAnyTag_isSome_iff _).mpr
            ⟨'/' :: 'c' :: run, post, ?_, by simp, ?_⟩
          · rw [heq]
            simp
          · simp only [List.all_cons, Bool.and_eq_true]
            exact ⟨by decide, by decide, hall⟩
        · rw [if_neg h2] at h
          simp only [Option.isSome_map'] at h
          obtain ⟨run, post, heq, hall⟩ := matchCTagAfter_decomp (c2 :: cs2) h
          refine (matchAnyTag_isSome_iff _).mpr
            ⟨'c' :: run, post, ?_, by simp, ?_⟩
          · rw [heq]
            simp
          · simp only [List.all_cons, Bool.and_eq_true]
            exact ⟨by decide, hall⟩
    · rw [if_neg hc] at h
      simp at h

theorem hasMatch_mono (m1 m2 : List Char → Option Nat)
    (hp : ∀ t, (m1 t).isSome = true → (m2 t).isSome = true) :
    ∀ s, hasMatch m1 s = true → hasMatch m2 s = true := by
  intro s
  induction s with
  | nil =>
    intro h
    rw [hasMatch] at h ⊢
    exact hp _ h
  | cons c cs ih =>
    intro h
    rw [hasMatch] at h ⊢
    rcases Bool.or_eq_true _ _ |>.mp h with h1 | h2
    · exact Bool.or_eq_true _ _ |>.mpr (Or.inl (hp _ h1))
    · exact Bool.or_eq_true _ _ |>.mpr (Or.inr (ih h2))

theorem remove_vtt_tags_no_tag (t : List Char) :
    hasMatch matchAnyTag (remove_vtt_tags t) = false := by
  unfold remove_vtt_tags
  cases hm : hasMatch matchAnyTag
      (pyStrip (reSub matchAnyTag (reSub matchCTag (reSub matchTsTag t))))
  · rfl
  · exfalso
    have h2 := hasMatch_any_of_isInfix
      (pyStrip_isInfix (reSub matchAnyTag (reSub matchCTag (reSub matchTsTag t)))) hm
    have h3 := reSub_any_no_tag (reSub matchCTag (reSub matchTsTag t)).length
      (reSub matchCTag (reSub matchTsTag t)) (Nat.le_refl _)
    rw [h3] at h2
    exact absurd h2 (by simp)

theorem collectTexts_mem (ls : List (List Char)) (t : List Char)
    (h : t ∈ collectTexts ls) : ∃ l, t = strippedText l := by
  rw [collectTexts_eq] at h
  have h2 := List.mem_of_mem_filter h
  rcases List.mem_map.mp h2 with ⟨l, _, rfl⟩
  exact ⟨l, rfl⟩

/-- C8 counterexample: the cue built from the two text lines `a <` and
`>b` has text `"a < >b"`, which contains the complete tag `< >`
(matching the code's own generic-tag pattern `<[^>]+>`): joining
stripped lines with a space can create a tag across the boundary, so
the claim is false for multi-line cues. -/
theorem cue_text_tag_cex :
    (vttParse ("00:00:01.000 --> 00:00:02.000\na <\n>b").toList).transcript_list =
      [⟨"a < >b".toList, 1, 1⟩] ∧
    hasMatch matchAnyTag ("a < >b").toList = true := by
  constructor
  · simp +decide [vttParse, parseVttLoop, splitCh, pyStrip, isWs, hasArrow, containsSub,
      startsWith, collectTexts, blockLine, strippedText, remove_vtt_tags, reSub,
      matchTsTag, digitsThen, matchCTag, matchCTagAfter, matchAnyTag, notGt,
      timingBounds, splitSub, parse_vtt_time, tryParseVttTime, pyInt, pyIntCore,
      pyFloat, pyFloatCore, natVal, joinSpace]
    norm_num
  · decide

/-- C8 amended: tag stripping is applied to every text line before it
enters a cue, and each individual stripped line contains no embedded
timestamp tag, no `<c>`/`</c>` tag and no other complete `<tag>`; a
cue's text is the space-join of such tag-free lines (a complete tag can
only arise across the join of two lines, as in the counterexample). -/
theorem cue_text_lines_tag_free :
    (∀ t, hasMatch matchAnyTag (remove_vtt_tags t) = false ∧
          hasMatch matchCTag (remove_vtt_tags t) = false ∧
          hasMatch matchTsTag (remove_vtt_tags t) = false) ∧
    (∀ lines cue, cue ∈ (parseVttLoop lines).2 →
        ∃ ts, ts ≠ [] ∧ (∀ t ∈ ts, hasMatch matchAnyTag t = false) ∧
          cue.text = joinSpace ts) := by
  have hall : ∀ t, hasMatch matchAnyTag (remove_vtt_tags t) = false :=
    remove_vtt_tags_no_tag
  have hother : ∀ (m : List Char → Option Nat),
      (∀ u, (m u).isSome = true → (matchAnyTag u).isSome = true) →
      ∀ t, hasMatch m (remove_vtt_tags t) = false := by
    intro m hp t
    cases hq : hasMatch m (remove_vtt_tags t)
    · rfl
    · exfalso
      have h2 := hasMatch_mono m matchAnyTag hp _ hq
      rw [hall t] at h2
      exact absurd h2 (by simp)
  constructor
  · intro t
    exact ⟨hall t, hother matchCTag matchCTag_isSome_any t,
      hother matchTsTag matchTsTag_isSome_any t⟩
  · intro lines
    induction lines using parseVttLoop.induct with
    | case1 => intro cue hc; simp [parseVttLoop] at hc
    | case2 l ls h1 hs heq ih =>
      intro cue hc
      have heq' : collectTexts ls = [] := List.isEmpty_iff.mp heq
      simp only [parseVttLoop, h1, if_true, heq', List.isEmpty_nil] at hc
      exact ih cue hc
    | case3 l ls h1 hs hne ih =>
      intro cue hc
      have hne' : (collectTexts ls).isEmpty = false := by
        cases hi : (collectTexts ls).isEmpty
        · rfl
        · exact absurd hi hne
      simp only [parseVttLoop, h1, if_true, hne', Bool.false_eq_true, if_false,
        List.mem_cons] at hc
      rcases hc with rfl | hc
      · refine ⟨collectTexts ls, ?_, ?_, rfl⟩
        · intro hnil
          rw [hnil] at hne'
          simp at hne'
        · intro t ht
          rcases collectTexts_mem ls t ht with ⟨l2, rfl⟩
          exact hall (pyStrip l2)
      · exact ih cue hc
    | case4 l ls h1 ih =>
      intro cue hc
      simp only [parseVttLoop, h1, if_false] at hc
      exact ih cue hc

/-- Witness for amended C8: the single cue of a concrete parse is the
join of tag-free stripped lines. -/
theorem cue_text_lines_tag_free_witness :
    ∃ ts, ts ≠ [] ∧ (∀ t ∈ ts, hasMatch matchAnyTag t = false) ∧
      (Cue.mk ("Hello").toList 1 1).text = joinSpace ts := by
  refine cue_text_lines_tag_free.2
    [("00:00:01.000 --> 00:00:02.000").toList, ("Hello").toList]
    (Cue.mk ("Hello").toList 1 1) ?_
  show _ ∈ (parseVttLoop _).2
  simp +decide [parseVttLoop, splitCh, pyStrip, isWs, hasArrow, containsSub,
    startsWith, collectTexts, blockLine, strippedText, remove_vtt_tags, reSub,
    matchTsTag, digitsThen, matchCTag, matchCTagAfter, matchAnyTag, notGt,
    timingBounds, splitSub, parse_vtt_time, tryParseVttTime, pyInt, pyIntCore,
    pyFloat, pyFloatCore, natVal, joinSpace]
  norm_num

end YT
